import Mathlib

/-!
# Verification of the `mastermind` game engine

Shallow embedding of the Rust sources (`src/game/mod.rs`, `src/game/builder.rs`,
and the earlier single-file revision `src/game.rs`, whose `Game::hits`,
`Game::guess` and builder are logically identical).

Modelling conventions:
* Peg values are `u8` in Rust; the engine only ever compares them for equality
  (scoring) or reduces a random byte modulo the range (generation), so they are
  modelled as `Nat`; random bytes are reduced `% 256` explicitly.
* Counters (`hits`, `near_hits`, guess counts) are `u8`/`usize` in Rust; since
  the builder caps the secret length at `peg_count : u8 ≤ 255`, none of them can
  overflow, and they are modelled as `Nat`.
* A Rust panic (out-of-bounds index, `unwrap` on `None`, `% 0`, or the explicit
  `panic!` in `calculate_pegs`) is modelled as `none` of an outer `Option`.
* The thread-local RNG is an injected stream `rng : Nat → Nat`; `rng i` stands
  for the `i`-th byte drawn from it.
-/

namespace Mastermind

/-- `pub struct Game` (src/game/mod.rs): secret pegs, guess history, optional
guess limit. -/
structure Game where
  pegs : List Nat
  guesses : List (List Nat)
  max_guesses : Option Nat
deriving DecidableEq

/-- `pub enum GuessError` (src/game/mod.rs). -/
inductive GuessError where
  | NoGuessesLeft
deriving DecidableEq

/-- First loop of `Game::hits`: walk secret (`real`) and guess positions in
lockstep; on `guess[i] == real[i]` both slots become `None` and `hits` is
incremented.  The Rust loop ranges over `real` and indexes `guess[i]`, so a
guess shorter than the secret panics (modelled by `none`); a longer guess keeps
its unvisited tail unconsumed. -/
def pass1 : List Nat → List Nat → Option (List (Option Nat) × List (Option Nat) × Nat)
  | [], guess => some ([], guess.map some, 0)
  | _ :: _, [] => none
  | r :: rs, g :: gs =>
    (pass1 rs gs).map fun x =>
      if g = r then (none :: x.1, none :: x.2.1, x.2.2 + 1)
      else (some r :: x.1, some g :: x.2.1, x.2.2)

/-- Inner loop of the second pass of `Game::hits`: for a fixed secret position
`i` holding `rp`, scan the guess slots from index `j` upward; on
`real_peg.is_some() && *real_peg == *guess_peg && i != j` consume both slots and
increment `near_hits`.  Returns the final secret slot, the updated guess slots,
and the updated counter. -/
def pass2Inner (i : Nat) : Nat → Option Nat → List (Option Nat) → Nat →
    Option Nat × List (Option Nat) × Nat
  | _, rp, [], near => (rp, [], near)
  | j, rp, gp :: gs, near =>
    if rp.isSome ∧ rp = gp ∧ i ≠ j then
      let x := pass2Inner i (j+1) none gs (near+1)
      (x.1, none :: x.2.1, x.2.2)
    else
      let x := pass2Inner i (j+1) rp gs near
      (x.1, gp :: x.2.1, x.2.2)

/-- Outer loop of the second pass of `Game::hits`: secret positions `i` in
ascending order, each scanning the whole current guess state from `j = 0`. -/
def pass2Outer : Nat → List (Option Nat) → List (Option Nat) → Nat →
    List (Option Nat) × List (Option Nat) × Nat
  | _, [], gs, near => ([], gs, near)
  | i, rp :: rs, gs, near =>
    let x := pass2Inner i 0 rp gs near
    let y := pass2Outer (i+1) rs x.2.1 x.2.2
    (x.1 :: y.1, y.2.1, y.2.2)

/-- The scoring computation inside the `map` closure of `Game::hits`, applied
to the secret (`real`) and one recorded guess.  `none` models the panic on a
guess shorter than the secret. -/
def score (real guess : List Nat) : Option (Nat × Nat) :=
  (pass1 real guess).map fun x => (x.2.2, (pass2Outer 0 x.1 x.2.1 0).2.2)

/-- `Game::hits` (src/game/mod.rs:28-59).  Outer `none` models a panic inside
the scoring closure; `some none` is Rust's `None` (index out of range of the
history); `some (some p)` is Rust's `Some(p)`. -/
def Game.hits (game : Game) (index : Nat) : Option (Option (Nat × Nat)) :=
  match game.guesses.get? index with
  | none => some none
  | some g => (score game.pegs g).map some

/-- The early-return guard of `Game::guess`: `self.guesses.len() == max_guesses`. -/
def Game.noGuessesLeft (game : Game) : Bool :=
  match game.max_guesses with
  | some m => game.guesses.length == m
  | none => false

/-- `Game::guess` (src/game/mod.rs:17-26).  Pushes the guess, then scores it via
`hits(len - 1).unwrap()`.  Outer `none` models a panic (from scoring, or from
the `unwrap`); the returned `Game` is the post-call state. -/
def Game.guess (game : Game) (g : List Nat) :
    Option (Except GuessError (Nat × Nat) × Game) :=
  if game.noGuessesLeft then
    some (Except.error GuessError.NoGuessesLeft, game)
  else
    let game' : Game := ⟨game.pegs, game.guesses ++ [g], game.max_guesses⟩
    match game'.hits (game'.guesses.length - 1) with
    | some (some p) => some (Except.ok p, game')
    | _ => none

/-- `pub struct GameBuilder` (src/game/builder.rs). -/
structure GameBuilder where
  pegs : Option (List Nat) := none
  peg_range : Option Nat := none
  peg_count : Option Nat := none
  max_guesses : Option Nat := none
  unlimited_guesses : Bool := false
deriving DecidableEq

/-- `GameBuilder::new` = `Self::default()`. -/
def GameBuilder.new : GameBuilder := {}

/-- Fluent setter `GameBuilder::pegs`. -/
def GameBuilder.withPegs (b : GameBuilder) (ps : List Nat) : GameBuilder :=
  { b with pegs := some ps }

/-- Fluent setter `GameBuilder::peg_range`. -/
def GameBuilder.withPegRange (b : GameBuilder) (r : Nat) : GameBuilder :=
  { b with peg_range := some r }

/-- Fluent setter `GameBuilder::peg_count`. -/
def GameBuilder.withPegCount (b : GameBuilder) (c : Nat) : GameBuilder :=
  { b with peg_count := some c }

/-- Fluent setter `GameBuilder::max_guesses`. -/
def GameBuilder.withMaxGuesses (b : GameBuilder) (m : Nat) : GameBuilder :=
  { b with max_guesses := some m }

/-- Fluent setter `GameBuilder::unlimited_guesses`. -/
def GameBuilder.withUnlimitedGuesses (b : GameBuilder) (u : Bool) : GameBuilder :=
  { b with unlimited_guesses := u }

/-- `GameBuilder::calculate_pegs` (src/game/builder.rs:43-65).  `none` models
the `panic!` on a peg-count mismatch and the division-by-zero panic of
`rand % 0`.  A generated byte is `rng i % 256`, reduced modulo the range. -/
def GameBuilder.calculate_pegs (b : GameBuilder) (rng : Nat → Nat) : Option (List Nat) :=
  let peg_count := b.peg_count.getD 4
  match b.pegs with
  | some pegs =>
    if pegs.length ≠ peg_count then none
    else some pegs
  | none =>
    let range := b.peg_range.getD 6
    if range = 0 then none
    else some ((List.range peg_count).map fun i => rng i % 256 % range)

/-- `impl From<GameBuilder> for Game` (src/game/builder.rs:68-85), also reached
through `GameBuilder::build`. -/
def GameBuilder.build (b : GameBuilder) (rng : Nat → Nat) : Option Game :=
  let max_guesses :=
    if ¬ b.unlimited_guesses then
      match b.max_guesses with
      | some m => some m
      | none => some 12
    else none
  (b.calculate_pegs rng).map fun pegs => ⟨pegs, [], max_guesses⟩

/-- States reachable through the public API: built by the builder, then any
number of `guess` calls.  (The `Game` fields are private in Rust, so these are
exactly the constructible states.) -/
inductive Reachable : Game → Prop where
  | build (b : GameBuilder) (rng : Nat → Nat) (game : Game) :
      b.build rng = some game → Reachable game
  | step (game : Game) (g : List Nat) (res : Except GuessError (Nat × Nat))
      (game' : Game) : Reachable game → game.guess g = some (res, game') →
      Reachable game'

/-! Proof-infrastructure definitions: views of a scoring state. -/

/-- Multiset of values of the unconsumed slots of a scoring state. -/
def vals : List (Option Nat) → Multiset Nat
  | [] => 0
  | none :: l => vals l
  | some v :: l => v ::ₘ vals l

/-- Number of consumed slots of a scoring state. -/
def nones (l : List (Option Nat)) : Nat := l.countP fun o => o.isNone

/-- Replace the first slot holding `some v` by `none`. -/
def consumeFirst (v : Nat) : List (Option Nat) → List (Option Nat)
  | [] => []
  | gp :: gs => if gp = some v then none :: gs else gp :: consumeFirst v gs

/-- No position holds the same unconsumed value in both states; `rs` is the
suffix of the secret state starting at absolute position `i`, `gs` the full
guess state. -/
def NoSamePos (i : Nat) (rs gs : List (Option Nat)) : Prop :=
  ∀ k v, rs.get? k = some (some v) → gs.get? (i + k) ≠ some (some v)

/-! Definitions modelled from the spec's own wording of the scoring algorithm
(section "Scoring algorithm (exact specification)"), to be compared with the
embedded `score`. -/

/-- Modelled from the spec, pass 1: "hits is the number of positions i in
[0,n) with G[i] = S[i]". -/
def specHits (S G : List Nat) : Nat :=
  ((List.range S.length).filter fun i => G.getD i 0 == S.getD i 0).length

/-- Modelled from the spec, pass 1 consumption: position `i` is consumed
exactly when "G[i] equals S[i]" (one boolean-consumption array per sequence;
for equal lengths the two arrays coincide). -/
def specConsumed (S G : List Nat) : List Bool :=
  (List.range S.length).map fun i => G.getD i 0 == S.getD i 0

/-- Modelled from the spec, pass 2 inner loop: for secret position `i` holding
value `sv`, scan guess positions `j` in ascending order over the guess values
`gvs` with consumption flags `cgs`; the first unconsumed pair with `i ≠ j` and
equal values is consumed immediately.  Returns the updated guess flags, the
updated secret flag, and the near hits counted. -/
def specInner (i sv : Nat) : Nat → List Nat → List Bool → Bool → Nat → List Bool × Bool × Nat
  | _, [], _, csi, near => ([], csi, near)
  | _, _ :: _, [], csi, near => ([], csi, near)
  | j, gv :: gvs, cgj :: cgs, csi, near =>
    if ¬ csi ∧ ¬ cgj ∧ sv = gv ∧ i ≠ j then
      let x := specInner i sv (j+1) gvs cgs true (near+1)
      (true :: x.1, x.2.1, x.2.2)
    else
      let x := specInner i sv (j+1) gvs cgs csi near
      (cgj :: x.1, x.2.1, x.2.2)

/-- Modelled from the spec, pass 2 outer loop: secret positions `i` in
ascending order, consumption and the near-hits counter carried over between
iterations. -/
def specOuter : Nat → List Nat → List Bool → List Nat → List Bool → Nat → Nat
  | _, [], _, _, _, near => near
  | _, _ :: _, [], _, _, near => near
  | i, sv :: svs, csi :: css, gvs, cgs, near =>
    let x := specInner i sv 0 gvs cgs csi near
    specOuter (i+1) svs css gvs x.1 x.2.2

/-- Modelled from the spec: the near-hits value of the greedy second pass,
started from the pass-1 consumption flags and a zero counter. -/
def specNearHits (S G : List Nat) : Nat :=
  specOuter 0 S (specConsumed S G) G (specConsumed S G) 0

/-- Bridge between the two state representations: values plus consumption
flags versus `Option`-slots. -/
def mask : List Nat → List Bool → List (Option Nat)
  | [], _ => []
  | _ :: _, [] => []
  | v :: vs, b :: bs => (if b then none else some v) :: mask vs bs

/-! Sanity checks: the literal scoring cases from the repository's test suite
(`hits_returns_accurate_hits`). -/

example : score [1, 1, 2, 2] [1, 1, 1, 1] = some (2, 0) := by decide
example : score [1, 1, 2, 2] [0, 2, 1, 4] = some (0, 2) := by decide
example : score [1, 1, 2, 2] [1, 2, 3, 1] = some (1, 2) := by decide
example : score [1, 1, 2, 2] [1, 1, 2, 2] = some (4, 0) := by decide
example : score [1, 5, 6, 3] [0, 0, 0, 0] = some (0, 0) := by decide
example : score [1, 5, 6, 3] [0, 0, 1, 0] = some (0, 1) := by decide
example : score [1, 5, 6, 3] [0, 5, 1, 0] = some (1, 1) := by decide
example : score [1, 5, 6, 3] [3, 5, 1, 0] = some (1, 2) := by decide

example : (specHits [1, 1, 2, 2] [0, 2, 1, 4], specNearHits [1, 1, 2, 2] [0, 2, 1, 4]) = (0, 2) := by
  decide
example : (specHits [1, 5, 6, 3] [3, 5, 1, 0], specNearHits [1, 5, 6, 3] [3, 5, 1, 0]) = (1, 2) := by
  decide

/-! ## Builder theorems -/

/-- C6: the built game's guess limit is `none` when the unlimited-guesses flag
is set (regardless of any previously configured limit); otherwise the
explicitly configured limit, defaulting to 12. -/
theorem build_effective_guess_limit (b : GameBuilder) (rng : Nat → Nat) (game : Game)
    (h : b.build rng = some game) :
    game.max_guesses = if b.unlimited_guesses then none else some (b.max_guesses.getD 12) := by
  cases hc : b.calculate_pegs rng with
  | none => simp [GameBuilder.build, hc] at h
  | some ps =>
    simp [GameBuilder.build, hc] at h
    cases hu : b.unlimited_guesses <;> cases hm : b.max_guesses <;>
      simp [hu, hm] at h ⊢ <;> simp [← h]

/-- Witness for C6 at a concrete builder: a previously set finite limit is
overridden by the unlimited-guesses flag. -/
theorem build_effective_guess_limit_witness :
    (⟨[1, 2, 3, 4], [], none⟩ : Game).max_guesses =
      if (GameBuilder.new.withPegs [1, 2, 3, 4] |>.withMaxGuesses 5
            |>.withUnlimitedGuesses true).unlimited_guesses
      then none
      else some ((GameBuilder.new.withPegs [1, 2, 3, 4] |>.withMaxGuesses 5
            |>.withUnlimitedGuesses true).max_guesses.getD 12) :=
  build_effective_guess_limit _ (fun _ => 0) _ rfl

/-- C7: with explicit pegs, building fails (the source panics) exactly when the
peg-sequence length differs from the configured peg count (default 4); on
agreement the built game's pegs are exactly the explicit sequence. -/
theorem build_explicit_pegs_validated (b : GameBuilder) (rng : Nat → Nat) (ps : List Nat)
    (hp : b.pegs = some ps) :
    (ps.length ≠ b.peg_count.getD 4 → b.build rng = none) ∧
    (ps.length = b.peg_count.getD 4 →
      ∃ game, b.build rng = some game ∧ game.pegs = ps ∧ game.guesses = []) := by
  constructor
  · intro hne
    cases hm : b.peg_count <;>
      simp [GameBuilder.build, GameBuilder.calculate_pegs, hp, hm] at hne ⊢ <;> omega
  · intro heq
    refine ⟨⟨ps, [],
      if ¬ b.unlimited_guesses then
        (match b.max_guesses with | some m => some m | none => some 12)
      else none⟩, ?_, rfl, rfl⟩
    simp [GameBuilder.build, GameBuilder.calculate_pegs, hp, heq]

/-- Witness for C7: pegs of length 3 with peg count 2 abort construction, and
matching lengths preserve the pegs exactly. -/
theorem build_explicit_pegs_validated_witness :
    ((GameBuilder.new.withPegs [1, 2, 3] |>.withPegCount 2).build (fun _ => 0) = none) ∧
    (∃ game, (GameBuilder.new.withPegs [9, 8, 7, 6]).build (fun _ => 0) = some game ∧
      game.pegs = [9, 8, 7, 6] ∧ game.guesses = []) :=
  ⟨(build_explicit_pegs_validated _ _ _ rfl).1 (by decide),
   (build_explicit_pegs_validated _ _ _ rfl).2 (by decide)⟩

/-- C8: without explicit pegs and with a positive peg range (default 6),
building succeeds, the secret has exactly `peg_count` entries (default 4), and
every entry lies below the range. -/
theorem build_random_pegs (b : GameBuilder) (rng : Nat → Nat)
    (hp : b.pegs = none) (hr : 1 ≤ b.peg_range.getD 6) :
    ∃ game, b.build rng = some game ∧
      game.pegs.length = b.peg_count.getD 4 ∧
      ∀ v ∈ game.pegs, v < b.peg_range.getD 6 := by
  have hr0 : b.peg_range.getD 6 ≠ 0 := by omega
  have hc : b.calculate_pegs rng =
      some ((List.range (b.peg_count.getD 4)).map fun i => rng i % 256 % b.peg_range.getD 6) := by
    simp [GameBuilder.calculate_pegs, hp, hr0]
  refine ⟨⟨(List.range (b.peg_count.getD 4)).map fun i => rng i % 256 % b.peg_range.getD 6, [],
      if ¬ b.unlimited_guesses then
        (match b.max_guesses with | some m => some m | none => some 12)
      else none⟩, ?_, ?_, ?_⟩
  · simp [GameBuilder.build, hc]
  · simp
  · intro v hv
    simp at hv
    obtain ⟨i, -, hi⟩ := hv
    exact hi ▸ Nat.mod_lt _ (by omega)

/-- Witness for C8 at a concrete builder and random stream. -/
theorem build_random_pegs_witness :
    ∃ game, (GameBuilder.new.withPegCount 3 |>.withPegRange 5).build (fun i => 7 * i + 3)
        = some game ∧
      game.pegs.length = (GameBuilder.new.withPegCount 3 |>.withPegRange 5).peg_count.getD 4 ∧
      ∀ v ∈ game.pegs, v < (GameBuilder.new.withPegCount 3 |>.withPegRange 5).peg_range.getD 6 :=
  build_random_pegs _ _ rfl (by decide)

/-! ## Guess-submission theorems -/

/-- Case analysis of `Game.guess`: either the limit guard fires and the state
is returned unchanged with `NoGuessesLeft`, or the guard passes and the guess
is appended (with an `Ok` result if no panic occurred). -/
theorem guess_cases (game : Game) (g : List Nat) (res : Except GuessError (Nat × Nat))
    (game' : Game) (h : game.guess g = some (res, game')) :
    (game.noGuessesLeft = true ∧ res = Except.error GuessError.NoGuessesLeft ∧ game' = game) ∨
    (game.noGuessesLeft = false ∧ (∃ p, res = Except.ok p) ∧
      game' = ⟨game.pegs, game.guesses ++ [g], game.max_guesses⟩) := by
  unfold Game.guess at h
  by_cases hng : game.noGuessesLeft = true
  · left
    rw [if_pos hng] at h
    simp at h
    exact ⟨hng, h.1.symm, h.2.symm⟩
  · right
    rw [if_neg hng] at h
    dsimp only at h
    refine ⟨by simpa using hng, ?_⟩
    split at h
    · simp at h
      exact ⟨⟨_, h.1.symm⟩, h.2.symm⟩
    · exact absurd h (by simp)

/-- C9: a successful `guess` appends exactly the submitted sequence to the
history, returns the score that the score query reports for the newly recorded
guess, and leaves the secret and the guess limit unchanged. -/
theorem guess_ok_frame (game : Game) (g : List Nat) (p : Nat × Nat) (game' : Game)
    (h : game.guess g = some (Except.ok p, game')) :
    game'.guesses = game.guesses ++ [g] ∧
    game'.pegs = game.pegs ∧
    game'.max_guesses = game.max_guesses ∧
    game'.hits (game'.guesses.length - 1) = some (some p) := by
  unfold Game.guess at h
  by_cases hng : game.noGuessesLeft = true
  · rw [if_pos hng] at h
    simp at h
  · rw [if_neg hng] at h
    dsimp only at h
    split at h
    · rename_i q hq
      simp at h
      obtain ⟨rfl, rfl⟩ := h
      exact ⟨rfl, rfl, rfl, hq⟩
    · exact absurd h (by simp)

/-- Witness for C9: the first test-suite guess on secret `[1,1,2,2]`. -/
theorem guess_ok_frame_witness :
    (⟨[1, 1, 2, 2], [[1, 1, 1, 1]], some 12⟩ : Game).guesses = [] ++ [[1, 1, 1, 1]] ∧
    (⟨[1, 1, 2, 2], [[1, 1, 1, 1]], some 12⟩ : Game).pegs = [1, 1, 2, 2] ∧
    (⟨[1, 1, 2, 2], [[1, 1, 1, 1]], some 12⟩ : Game).max_guesses = some 12 ∧
    Game.hits ⟨[1, 1, 2, 2], [[1, 1, 1, 1]], some 12⟩ 0 = some (some (2, 0)) :=
  guess_ok_frame ⟨[1, 1, 2, 2], [], some 12⟩ [1, 1, 1, 1] (2, 0)
    ⟨[1, 1, 2, 2], [[1, 1, 1, 1]], some 12⟩ rfl

/-- C2 (divergence witness): `guess` performs no length validation.  A guess
shorter than the secret is recorded and then scoring panics with an
out-of-bounds index (modelled by `none`) instead of reporting an invalid-input
error; a longer guess is silently recorded and scored. -/
theorem guess_length_mismatch_behavior :
    (Game.guess ⟨[1, 1, 2, 2], [], some 12⟩ [1, 2] = none) ∧
    (Game.guess ⟨[1, 1, 2, 2], [], some 12⟩ [1, 1, 2, 2, 1, 1] =
      some (Except.ok (4, 0), ⟨[1, 1, 2, 2], [[1, 1, 2, 2, 1, 1]], some 12⟩)) :=
  ⟨rfl, rfl⟩

/-- Reachability invariant: in every state constructible through the public
API, the guess history length never exceeds a finite guess limit. -/
theorem reachable_guesses_le (game : Game) (h : Reachable game) :
    ∀ m, game.max_guesses = some m → game.guesses.length ≤ m := by
  induction h with
  | build b rng game hb =>
    intro m hm
    cases hc : b.calculate_pegs rng with
    | none => simp [GameBuilder.build, hc] at hb
    | some ps =>
      simp [GameBuilder.build, hc] at hb
      rw [← hb]
      simp
  | step game g res game' _ hstep ih =>
    intro m hm
    rcases guess_cases _ _ _ _ hstep with ⟨-, -, rfl⟩ | ⟨hng, -, rfl⟩
    · exact ih m hm
    · simp only at hm ⊢
      have hle := ih m hm
      unfold Game.noGuessesLeft at hng
      rw [hm] at hng
      simp at hng
      simp
      omega

/-- C5: for every reachable game with a finite guess limit, the guess history
length never exceeds the limit: it holds at construction and is preserved by
every `guess` call. -/
theorem guess_history_never_exceeds_limit (game : Game) (m : Nat)
    (h : Reachable game) (hm : game.max_guesses = some m) :
    game.guesses.length ≤ m :=
  reachable_guesses_le game h m hm

/-- Witness for C5: a freshly built game with the default limit 12. -/
theorem guess_history_never_exceeds_limit_witness :
    Reachable ⟨[1, 2, 3, 4], [], some 12⟩ ∧
    (⟨[1, 2, 3, 4], [], some 12⟩ : Game).guesses.length ≤ 12 := by
  have hr : Reachable ⟨[1, 2, 3, 4], [], some 12⟩ :=
    Reachable.build (GameBuilder.new.withPegs [1, 2, 3, 4]) (fun _ => 0) _ rfl
  exact ⟨hr, guess_history_never_exceeds_limit _ 12 hr rfl⟩

/-- C3: on every reachable game, `guess` returns `NoGuessesLeft` exactly when a
finite limit is set and the guess count is not below it, and in that case the
game state is unmodified. -/
theorem guess_noGuessesLeft_iff (game : Game) (g : List Nat) (h : Reachable game) :
    ((∃ game', game.guess g = some (Except.error GuessError.NoGuessesLeft, game')) ↔
      ∃ m, game.max_guesses = some m ∧ ¬ game.guesses.length < m) ∧
    (∀ game', game.guess g = some (Except.error GuessError.NoGuessesLeft, game') →
      game' = game) := by
  constructor
  · constructor
    · rintro ⟨game', hg⟩
      rcases guess_cases _ _ _ _ hg with ⟨hng, -, -⟩ | ⟨-, ⟨p, hp⟩, -⟩
      · unfold Game.noGuessesLeft at hng
        cases hm : game.max_guesses with
        | none => rw [hm] at hng; simp at hng
        | some m =>
          rw [hm] at hng
          simp at hng
          exact ⟨m, rfl, by omega⟩
      · cases hp
    · rintro ⟨m, hm, hge⟩
      have hle := reachable_guesses_le game h m hm
      have hng : game.noGuessesLeft = true := by
        unfold Game.noGuessesLeft
        rw [hm]
        simp
        omega
      refine ⟨game, ?_⟩
      unfold Game.guess
      rw [if_pos hng]
  · intro game' hg
    rcases guess_cases _ _ _ _ hg with ⟨-, -, rfl⟩ | ⟨-, ⟨p, hp⟩, -⟩
    · rfl
    · cases hp

/-- Witness for C3 at a concrete reachable game whose limit of 2 is exhausted:
a third guess is rejected and the state is unchanged. -/
theorem guess_noGuessesLeft_iff_witness :
    (((∃ game', Game.guess ⟨[1, 2, 3, 4], [[0, 0, 0, 0], [0, 0, 0, 0]], some 2⟩ [5, 5, 5, 5]
        = some (Except.error GuessError.NoGuessesLeft, game')) ↔
      ∃ m, (⟨[1, 2, 3, 4], [[0, 0, 0, 0], [0, 0, 0, 0]], some 2⟩ : Game).max_guesses = some m ∧
        ¬ (⟨[1, 2, 3, 4], [[0, 0, 0, 0], [0, 0, 0, 0]], some 2⟩ : Game).guesses.length < m) ∧
    (∀ game', Game.guess ⟨[1, 2, 3, 4], [[0, 0, 0, 0], [0, 0, 0, 0]], some 2⟩ [5, 5, 5, 5]
        = some (Except.error GuessError.NoGuessesLeft, game') →
      game' = ⟨[1, 2, 3, 4], [[0, 0, 0, 0], [0, 0, 0, 0]], some 2⟩)) := by
  have h0 : Reachable ⟨[1, 2, 3, 4], [], some 2⟩ :=
    Reachable.build (GameBuilder.new.withPegs [1, 2, 3, 4] |>.withMaxGuesses 2)
      (fun _ => 0) _ rfl
  have h1 : Reachable ⟨[1, 2, 3, 4], [[0, 0, 0, 0]], some 2⟩ :=
    Reachable.step _ [0, 0, 0, 0] (Except.ok (0, 0)) _ h0 rfl
  have h2 : Reachable ⟨[1, 2, 3, 4], [[0, 0, 0, 0], [0, 0, 0, 0]], some 2⟩ :=
    Reachable.step _ [0, 0, 0, 0] (Except.ok (0, 0)) _ h1 rfl
  exact guess_noGuessesLeft_iff _ [5, 5, 5, 5] h2

/-! ## Scoring: equivalence with the spec's wording (C1) -/

/-- Pass 1 in closed form (equal lengths): the two states are the inputs
masked at the hit positions, and the counter is the number of positional
matches. -/
theorem pass1_mask : ∀ S G : List Nat, G.length = S.length →
    pass1 S G = some (mask S (S.zipWith (fun s g => g == s) G),
      mask G (S.zipWith (fun s g => g == s) G),
      (S.zip G).countP fun p => p.2 == p.1)
  | [], [], _ => rfl
  | [], _ :: _, h => by simp at h
  | _ :: _, [], h => by simp at h
  | s :: ss, g :: gs, h => by
    have ih := pass1_mask ss gs (by simpa using h)
    by_cases hgs : g = s
    · simp [pass1, ih, mask, hgs, List.countP_cons]
    · simp [pass1, ih, mask, hgs, List.countP_cons]

/-- A consumed secret slot stays consumed and changes nothing in the inner
scan. -/
theorem pass2Inner_none (gs : List (Option Nat)) :
    ∀ (i j near : Nat), pass2Inner i j none gs near = (none, gs, near) := by
  induction gs with
  | nil => intro i j near; rfl
  | cons gp gs ih => intro i j near; simp [pass2Inner, ih]

/-- The spec's inner scan with a consumed secret slot changes nothing. -/
theorem specInner_true (gvs : List Nat) :
    ∀ (cgs : List Bool) (i sv j near : Nat),
    specInner i sv j gvs cgs true near = (cgs.take gvs.length, true, near) := by
  induction gvs with
  | nil => intro cgs i sv j near; simp [specInner]
  | cons gv gvs ih =>
    intro cgs i sv j near
    cases cgs with
    | nil => simp [specInner]
    | cons cgj cgs => simp [specInner, ih]

/-- `mask` ignores flags beyond the value list. -/
theorem mask_take (vs : List Nat) :
    ∀ bs : List Bool, mask vs (bs.take vs.length) = mask vs bs := by
  induction vs with
  | nil => intro bs; rfl
  | cons v vs ih =>
    intro bs
    cases bs with
    | nil => rfl
    | cons b bs => simp [mask, ih]

/-- The code's inner scan simulates the spec's inner scan through `mask`. -/
theorem pass2Inner_mask (gvs : List Nat) :
    ∀ (cgs : List Bool) (i sv j : Nat) (csi : Bool) (near : Nat),
    pass2Inner i j (if csi then none else some sv) (mask gvs cgs) near =
      (if (specInner i sv j gvs cgs csi near).2.1 then none else some sv,
       mask gvs (specInner i sv j gvs cgs csi near).1,
       (specInner i sv j gvs cgs csi near).2.2) := by
  induction gvs with
  | nil =>
    intro cgs i sv j csi near
    cases csi <;> simp [mask, pass2Inner, specInner]
  | cons gv gvs ih =>
    intro cgs i sv j csi near
    cases cgs with
    | nil => cases csi <;> simp [mask, pass2Inner, specInner]
    | cons cgj cgs =>
      cases csi with
      | true =>
        simp [mask, specInner_true, mask_take, pass2Inner_none,
          List.take_succ_cons]
      | false =>
        have ihF := ih cgs i sv (j+1) false near
        simp only [Bool.false_eq_true, if_false] at ihF
        cases cgj with
        | true =>
          simp [mask, pass2Inner, specInner, ihF]
        | false =>
          by_cases hsv : sv = gv
          · by_cases hij : i = j
            · subst hsv; subst hij
              simp [mask, pass2Inner, specInner, ihF]
            · simp [mask, pass2Inner, specInner, hsv, hij, specInner_true,
                pass2Inner_none, mask_take]
          · simp [mask, pass2Inner, specInner, hsv, ihF]

/-- The code's outer pass simulates the spec's outer pass through `mask`;
the near-hits counters agree. -/
theorem pass2Outer_mask (svs : List Nat) :
    ∀ (css : List Bool) (gvs : List Nat) (cgs : List Bool) (i near : Nat),
    (pass2Outer i (mask svs css) (mask gvs cgs) near).2.2 =
      specOuter i svs css gvs cgs near := by
  induction svs with
  | nil =>
    intro css gvs cgs i near
    cases css <;> simp [mask, pass2Outer, specOuter]
  | cons sv svs ih =>
    intro css gvs cgs i near
    cases css with
    | nil => simp [mask, pass2Outer, specOuter]
    | cons csi css =>
      simp only [mask, pass2Outer, specOuter, pass2Inner_mask]
      exact ih css gvs _ (i+1) _

/-- The spec's index-based pass-1 consumption flags, in structural form. -/
theorem specConsumed_eq : ∀ S G : List Nat, G.length = S.length →
    specConsumed S G = S.zipWith (fun s g => g == s) G
  | [], [], _ => rfl
  | [], _ :: _, h => by simp at h
  | _ :: _, [], h => by simp at h
  | s :: ss, g :: gs, h => by
    have ih := specConsumed_eq ss gs (by simpa using h)
    unfold specConsumed at ih ⊢
    simp only [List.length_cons, List.range_succ_eq_map, List.map_cons,
      List.map_map]
    rw [List.zipWith_cons_cons, ← ih]
    rfl

/-- The spec's index-based hit count, in structural form. -/
theorem specHits_eq : ∀ S G : List Nat, G.length = S.length →
    specHits S G = (S.zip G).countP fun p => p.2 == p.1
  | [], [], _ => rfl
  | [], _ :: _, h => by simp at h
  | _ :: _, [], h => by simp at h
  | s :: ss, g :: gs, h => by
    have ih := specHits_eq ss gs (by simpa using h)
    unfold specHits at ih ⊢
    rw [← List.countP_eq_length_filter] at ih ⊢
    simp only [List.length_cons, List.range_succ_eq_map, List.countP_cons,
      List.countP_map]
    have hcomp : ((fun i => (g :: gs).getD i 0 == (s :: ss).getD i 0) ∘ Nat.succ)
        = fun i => gs.getD i 0 == ss.getD i 0 := by
      funext k
      simp [Function.comp, List.getD_cons_succ]
    rw [hcomp, ih]
    simp [List.countP_cons]

/-- C1: for a recorded guess of the secret's length, the score query returns
the pair described by the spec: the positional match count, and the near hits
of the greedy second pass over unconsumed positions (secret positions outer
ascending, guess positions inner ascending, first valid pair consumed
immediately). -/
theorem hits_matches_spec (game : Game) (i : Nat) (G : List Nat)
    (hG : game.guesses.get? i = some G) (hlen : G.length = game.pegs.length) :
    game.hits i = some (some (specHits game.pegs G, specNearHits game.pegs G)) := by
  unfold Game.hits
  rw [hG]
  dsimp only
  unfold score
  rw [pass1_mask game.pegs G hlen]
  have h2 : specNearHits game.pegs G =
      specOuter 0 game.pegs (game.pegs.zipWith (fun s g => g == s) G) G
        (game.pegs.zipWith (fun s g => g == s) G) 0 := by
    unfold specNearHits
    rw [specConsumed_eq _ _ hlen]
  rw [specHits_eq _ _ hlen, h2, ← pass2Outer_mask]
  rfl

/-- Witness for C1: the recorded guess `[0,2,1,4]` against secret `[1,1,2,2]`
scores `(0, 2)` on both sides. -/
theorem hits_matches_spec_witness :
    Game.hits ⟨[1, 1, 2, 2], [[0, 2, 1, 4]], some 12⟩ 0 =
      some (some (specHits [1, 1, 2, 2] [0, 2, 1, 4],
        specNearHits [1, 1, 2, 2] [0, 2, 1, 4])) :=
  hits_matches_spec ⟨[1, 1, 2, 2], [[0, 2, 1, 4]], some 12⟩ 0 [0, 2, 1, 4] rfl rfl

/-! ## Scoring: conservation of pegs (C4) and symmetry (C10) -/

theorem nones_cons_none (l : List (Option Nat)) : nones (none :: l) = nones l + 1 := by
  simp [nones, List.countP_cons]

theorem nones_cons_some (v : Nat) (l : List (Option Nat)) : nones (some v :: l) = nones l := by
  simp [nones, List.countP_cons]

theorem nones_map_some (l : List Nat) : nones (l.map some) = 0 := by
  induction l with
  | nil => rfl
  | cons x l ih => rw [List.map_cons, nones_cons_some]; exact ih

theorem vals_mem (gs : List (Option Nat)) : ∀ v : Nat, v ∈ vals gs ↔ some v ∈ gs := by
  induction gs with
  | nil => intro v; simp [vals]
  | cons gp gs ih =>
    intro v
    cases gp with
    | none => simp [vals, ih]
    | some w => simp [vals, Multiset.mem_cons, ih, eq_comm]

theorem consumeFirst_length (v : Nat) (gs : List (Option Nat)) :
    (consumeFirst v gs).length = gs.length := by
  induction gs with
  | nil => rfl
  | cons gp gs ih => by_cases h : gp = some v <;> simp [consumeFirst, h, ih]

theorem consumeFirst_vals (v : Nat) (gs : List (Option Nat)) (h : some v ∈ gs) :
    vals (consumeFirst v gs) = (vals gs).erase v := by
  induction gs with
  | nil => simp at h
  | cons gp gs ih =>
    by_cases hg : gp = some v
    · subst hg
      simp [consumeFirst, vals, Multiset.erase_cons_head]
    · have hmem : some v ∈ gs := by
        rcases List.mem_cons.mp h with h1 | h1
        · exact absurd h1.symm hg
        · exact h1
      cases gp with
      | none => simp [consumeFirst, hg, vals, ih hmem]
      | some w =>
        have hw : w ≠ v := fun hwv => hg (by rw [hwv])
        simp [consumeFirst, hg, vals, ih hmem, Multiset.erase_cons_tail _ hw]

theorem consumeFirst_nones (v : Nat) (gs : List (Option Nat)) (h : some v ∈ gs) :
    nones (consumeFirst v gs) = nones gs + 1 := by
  induction gs with
  | nil => simp at h
  | cons gp gs ih =>
    by_cases hg : gp = some v
    · subst hg
      simp [consumeFirst, nones_cons_none, nones_cons_some]
    · have hmem : some v ∈ gs := by
        rcases List.mem_cons.mp h with h1 | h1
        · exact absurd h1.symm hg
        · exact h1
      cases gp with
      | none => simp [consumeFirst, hg, nones_cons_none, ih hmem]
      | some w => simp [consumeFirst, hg, nones_cons_some, ih hmem]

theorem consumeFirst_get?_some (v : Nat) (gs : List (Option Nat)) :
    ∀ k w, (consumeFirst v gs).get? k = some (some w) → gs.get? k = some (some w) := by
  induction gs with
  | nil => intro k w hk; simp [consumeFirst] at hk
  | cons gp gs ih =>
    intro k w hk
    by_cases hg : gp = some v
    · simp only [consumeFirst, if_pos hg] at hk
      cases k with
      | zero => simp at hk
      | succ k => simpa using hk
    · simp only [consumeFirst, if_neg hg] at hk
      cases k with
      | zero => simpa using hk
      | succ k => exact ih k w (by simpa using hk)

theorem pass2Inner_not_mem (gs : List (Option Nat)) :
    ∀ (i j sv near : Nat), some sv ∉ gs →
    pass2Inner i j (some sv) gs near = (some sv, gs, near) := by
  induction gs with
  | nil => intro i j sv near _; rfl
  | cons gp gs ih =>
    intro i j sv near h
    have h1 : ¬ (some sv : Option Nat) = gp := by
      intro he
      exact h (by rw [he]; exact List.mem_cons_self gp gs)
    have h2 : some sv ∉ gs := fun hm => h (List.mem_cons_of_mem _ hm)
    simp [pass2Inner, h1, ih _ _ _ _ h2]

theorem pass2Inner_mem (gs : List (Option Nat)) :
    ∀ (i j sv near : Nat), some sv ∈ gs →
    (∀ k, gs.get? k = some (some sv) → j + k ≠ i) →
    pass2Inner i j (some sv) gs near = (none, consumeFirst sv gs, near + 1) := by
  induction gs with
  | nil => intro i j sv near h _; simp at h
  | cons gp gs ih =>
    intro i j sv near h hk
    by_cases hg : gp = some sv
    · subst hg
      have hij : i ≠ j := by
        have := hk 0 (by simp)
        omega
      simp [pass2Inner, hij, pass2Inner_none, consumeFirst]
    · have hmem : some sv ∈ gs := by
        rcases List.mem_cons.mp h with h1 | h1
        · exact absurd h1.symm hg
        · exact h1
      have hne : ¬ (some sv : Option Nat) = gp := fun he => hg he.symm
      have hk2 : ∀ k, gs.get? k = some (some sv) → (j+1) + k ≠ i := by
        intro k hgk
        have := hk (k+1) (by simpa using hgk)
        omega
      simp [pass2Inner, hne, ih _ _ _ _ hmem hk2, consumeFirst, hg]

theorem noSamePos_tail (i : Nat) (rp : Option Nat) (rs gs : List (Option Nat))
    (h : NoSamePos i (rp :: rs) gs) : NoSamePos (i+1) rs gs := by
  intro k v hk
  have h2 := h (k+1) v (by simpa using hk)
  have he : i + (k + 1) = i + 1 + k := by omega
  rw [he] at h2
  exact h2

theorem noSamePos_consumeFirst (i sv : Nat) (rs gs : List (Option Nat))
    (h : NoSamePos i rs gs) : NoSamePos i rs (consumeFirst sv gs) := by
  intro k v hk hg
  exact h k v hk (consumeFirst_get?_some sv gs _ _ hg)

theorem noSamePos_cons (x y : Option Nat) (rs gs : List (Option Nat))
    (hxy : ∀ v : Nat, x = some v → y ≠ some v)
    (h : NoSamePos 0 rs gs) : NoSamePos 0 (x :: rs) (y :: gs) := by
  intro k v hk
  cases k with
  | zero =>
    simp only [List.get?_cons_zero, Option.some.injEq] at hk
    simp only [Nat.zero_add, List.get?_cons_zero]
    intro hy
    exact hxy v hk (by simpa using hy)
  | succ k =>
    have h2 := h k v (by simpa using hk)
    simp only [Nat.zero_add] at h2 ⊢
    simpa using h2

/-- The outer second pass consumes exactly one fresh slot on each side per near
hit, and counts the multiset intersection of the unconsumed values. -/
theorem pass2Outer_char (rs : List (Option Nat)) :
    ∀ (i : Nat) (gs : List (Option Nat)) (near : Nat), NoSamePos i rs gs →
    ∃ rs2 gs2, pass2Outer i rs gs near = (rs2, gs2, near + (vals rs ∩ vals gs).card) ∧
      nones rs2 = nones rs + (vals rs ∩ vals gs).card ∧
      nones gs2 = nones gs + (vals rs ∩ vals gs).card ∧
      rs2.length = rs.length ∧ gs2.length = gs.length := by
  induction rs with
  | nil =>
    intro i gs near _
    exact ⟨[], gs, by simp [pass2Outer, vals, Multiset.zero_inter],
      by simp [vals, Multiset.zero_inter], by simp [vals, Multiset.zero_inter], rfl, rfl⟩
  | cons rp rs ih =>
    intro i gs near hns
    have hns1 : NoSamePos (i+1) rs gs := noSamePos_tail _ _ _ _ hns
    cases rp with
    | none =>
      obtain ⟨rs2, gs2, heq, hn1, hn2, hl1, hl2⟩ := ih (i+1) gs near hns1
      have hveq : vals (none :: rs) = vals rs := rfl
      refine ⟨none :: rs2, gs2, ?_, ?_, ?_, ?_, ?_⟩
      · simp only [pass2Outer, pass2Inner_none, heq, hveq]
      · rw [hveq, nones_cons_none, nones_cons_none, hn1]
        omega
      · rw [hveq, hn2]
      · simpa using hl1
      · exact hl2
    | some v =>
      by_cases hv : some v ∈ gs
      · have hvv : v ∈ vals gs := (vals_mem gs v).mpr hv
        have hfirst : ∀ k, gs.get? k = some (some v) → 0 + k ≠ i := by
          intro k hk hki
          have h0 := hns 0 v rfl
          have hik : i + 0 = k := by omega
          rw [hik] at h0
          exact h0 hk
        have hinner : pass2Inner i 0 (some v) gs near = (none, consumeFirst v gs, near + 1) :=
          pass2Inner_mem gs i 0 v near hv hfirst
        have hns2 : NoSamePos (i+1) rs (consumeFirst v gs) :=
          noSamePos_consumeFirst _ _ _ _ hns1
        obtain ⟨rs2, gs2, heq, hn1, hn2, hl1, hl2⟩ := ih (i+1) (consumeFirst v gs) (near+1) hns2
        rw [consumeFirst_vals v gs hv] at heq hn1 hn2
        have hC : (vals (some v :: rs) ∩ vals gs).card =
            (vals rs ∩ (vals gs).erase v).card + 1 := by
          show ((v ::ₘ vals rs) ∩ vals gs).card = _
          rw [Multiset.cons_inter_of_pos _ hvv, Multiset.card_cons]
        refine ⟨none :: rs2, gs2, ?_, ?_, ?_, ?_, ?_⟩
        · simp only [pass2Outer, hinner, heq, Prod.mk.injEq]
          refine ⟨trivial, trivial, ?_⟩
          omega
        · rw [nones_cons_none, hn1, nones_cons_some, hC]
          omega
        · rw [hn2, consumeFirst_nones v gs hv, hC]
          omega
        · simpa using hl1
        · rw [hl2, consumeFirst_length]
      · have hvv : v ∉ vals gs := fun hm => hv ((vals_mem gs v).mp hm)
        have hinner : pass2Inner i 0 (some v) gs near = (some v, gs, near) :=
          pass2Inner_not_mem gs i 0 v near hv
        obtain ⟨rs2, gs2, heq, hn1, hn2, hl1, hl2⟩ := ih (i+1) gs near hns1
        have hC : (vals (some v :: rs) ∩ vals gs).card = (vals rs ∩ vals gs).card := by
          show ((v ::ₘ vals rs) ∩ vals gs).card = _
          rw [Multiset.cons_inter_of_neg _ hvv]
        refine ⟨some v :: rs2, gs2, ?_, ?_, ?_, ?_, ?_⟩
        · simp only [pass2Outer, hinner, heq, Prod.mk.injEq]
          refine ⟨trivial, trivial, ?_⟩
          omega
        · rw [nones_cons_some, hn1, nones_cons_some, hC]
        · rw [hn2, hC]
        · simpa using hl1
        · exact hl2

/-- Pass-1 accounting: the hit count equals the consumed-slot count on each
side, and lengths are preserved. -/
theorem pass1_nones : ∀ (S G : List Nat) (rs gs : List (Option Nat)) (h : Nat),
    pass1 S G = some (rs, gs, h) →
    nones rs = h ∧ nones gs = h ∧ rs.length = S.length ∧ gs.length = G.length
  | [], G, rs, gs, h, heq => by
    simp only [pass1, Option.some.injEq, Prod.mk.injEq] at heq
    obtain ⟨h1, h2, h3⟩ := heq
    subst h1; subst h2; subst h3
    simp [nones, nones_map_some]
  | _ :: _, [], _, _, _, heq => by simp [pass1] at heq
  | s :: ss, g :: gs0, rs, gs, h, heq => by
    cases hp : pass1 ss gs0 with
    | none => rw [pass1, hp] at heq; simp at heq
    | some x =>
      obtain ⟨a, b, c⟩ := x
      obtain ⟨ih1, ih2, ih3, ih4⟩ := pass1_nones ss gs0 a b c hp
      rw [pass1, hp] at heq
      by_cases hgs : g = s
      · simp only [Option.map_some', if_pos hgs, Option.some.injEq, Prod.mk.injEq] at heq
        obtain ⟨h1, h2, h3⟩ := heq
        subst h1; subst h2; subst h3
        simp [nones_cons_none, ih1, ih2, ih3, ih4]
      · simp only [Option.map_some', if_neg hgs, Option.some.injEq, Prod.mk.injEq] at heq
        obtain ⟨h1, h2, h3⟩ := heq
        subst h1; subst h2; subst h3
        simp [nones_cons_some, ih1, ih2, ih3, ih4]

/-- After pass 1, no position holds the same unconsumed value on both sides
(such a pair would have been an exact hit). -/
theorem pass1_noSamePos : ∀ (S G : List Nat) (rs gs : List (Option Nat)) (h : Nat),
    pass1 S G = some (rs, gs, h) → NoSamePos 0 rs gs
  | [], G, rs, gs, h, heq => by
    simp only [pass1, Option.some.injEq, Prod.mk.injEq] at heq
    obtain ⟨h1, -, -⟩ := heq
    subst h1
    intro k v hk
    simp at hk
  | _ :: _, [], _, _, _, heq => by simp [pass1] at heq
  | s :: ss, g :: gs0, rs, gs, h, heq => by
    cases hp : pass1 ss gs0 with
    | none => rw [pass1, hp] at heq; simp at heq
    | some x =>
      obtain ⟨a, b, c⟩ := x
      have ih := pass1_noSamePos ss gs0 a b c hp
      rw [pass1, hp] at heq
      by_cases hgs : g = s
      · simp only [Option.map_some', if_pos hgs, Option.some.injEq, Prod.mk.injEq] at heq
        obtain ⟨h1, h2, -⟩ := heq
        subst h1; subst h2
        exact noSamePos_cons none none a b (fun v hv => by cases hv) ih
      · simp only [Option.map_some', if_neg hgs, Option.some.injEq, Prod.mk.injEq] at heq
        obtain ⟨h1, h2, -⟩ := heq
        subst h1; subst h2
        refine noSamePos_cons (some s) (some g) a b ?_ ih
        intro v hv
        simp only [Option.some.injEq] at hv
        subst hv
        intro hc
        exact hgs (by simpa using hc)

/-- Pass 1 on swapped inputs (equal lengths) swaps the two states and keeps the
hit count. -/
theorem pass1_swap : ∀ (S G : List Nat), G.length = S.length →
    ∀ (rs gs : List (Option Nat)) (h : Nat), pass1 S G = some (rs, gs, h) →
    pass1 G S = some (gs, rs, h)
  | [], [], _, rs, gs, h, heq => by
    simp only [pass1, List.map_nil, Option.some.injEq, Prod.mk.injEq] at heq ⊢
    exact ⟨heq.2.1, heq.1, heq.2.2⟩
  | [], _ :: _, hlen, _, _, _, _ => by simp at hlen
  | _ :: _, [], hlen, _, _, _, _ => by simp at hlen
  | s :: ss, g :: gs0, hlen, rs, gs, h, heq => by
    cases hp : pass1 ss gs0 with
    | none => rw [pass1, hp] at heq; simp at heq
    | some x =>
      obtain ⟨a, b, c⟩ := x
      have ih := pass1_swap ss gs0 (by simpa using hlen) a b c hp
      rw [pass1, hp] at heq
      rw [pass1, ih]
      simp only [Option.map_some'] at heq ⊢
      by_cases hgs : g = s
      · rw [if_pos hgs] at heq
        rw [if_pos hgs.symm]
        simp only [Option.some.injEq, Prod.mk.injEq] at heq ⊢
        exact ⟨heq.2.1, heq.1, heq.2.2⟩
      · rw [if_neg hgs] at heq
        rw [if_neg (fun hsg => hgs hsg.symm)]
        simp only [Option.some.injEq, Prod.mk.injEq] at heq ⊢
        exact ⟨heq.2.1, heq.1, heq.2.2⟩

/-- C4: for a secret and a recorded guess of equal length `n`, the score is
defined, satisfies `hits + near_hits ≤ n`, and the final consumption states
account for every counted match by a distinct consumed position on each side
(`hits + near_hits` consumed slots in each sequence). -/
theorem score_bounded (S G : List Nat) (hlen : G.length = S.length)
    (rs gs : List (Option Nat)) (h : Nat) (hp1 : pass1 S G = some (rs, gs, h))
    (rs2 gs2 : List (Option Nat)) (nh : Nat) (hp2 : pass2Outer 0 rs gs 0 = (rs2, gs2, nh)) :
    score S G = some (h, nh) ∧ h + nh ≤ S.length ∧
    nones rs2 = h + nh ∧ nones gs2 = h + nh ∧
    rs2.length = S.length ∧ gs2.length = G.length := by
  have hns := pass1_noSamePos S G rs gs h hp1
  obtain ⟨hn_rs, hn_gs, hlr, hlg⟩ := pass1_nones S G rs gs h hp1
  obtain ⟨rs3, gs3, he, hnn1, hnn2, hll1, hll2⟩ := pass2Outer_char rs 0 gs 0 hns
  rw [hp2] at he
  simp only [Prod.mk.injEq] at he
  obtain ⟨h1, h2, h3⟩ := he
  subst h1; subst h2
  have hb : nones rs2 ≤ rs2.length := List.countP_le_length _
  refine ⟨?_, by omega, by omega, by omega, by omega, by omega⟩
  unfold score
  rw [hp1]
  simp only [Option.map_some']
  rw [hp2]

/-- Witness for C4 at secret `[1,1,2,2]`, guess `[0,2,1,4]`: score `(0,2)`,
`0 + 2 ≤ 4`, and both final states have exactly two consumed slots. -/
theorem score_bounded_witness :
    score [1, 1, 2, 2] [0, 2, 1, 4] = some (0, 2) ∧
    0 + 2 ≤ ([1, 1, 2, 2] : List Nat).length ∧
    nones [none, some 1, none, some 2] = 0 + 2 ∧
    nones [some 0, none, none, some 4] = 0 + 2 ∧
    ([none, some 1, none, some 2] : List (Option Nat)).length = ([1, 1, 2, 2] : List Nat).length ∧
    ([some 0, none, none, some 4] : List (Option Nat)).length = ([0, 2, 1, 4] : List Nat).length :=
  score_bounded [1, 1, 2, 2] [0, 2, 1, 4] rfl
    [some 1, some 1, some 2, some 2] [some 0, some 2, some 1, some 4] 0 rfl
    [none, some 1, none, some 2] [some 0, none, none, some 4] 2 rfl

/-- C10: scoring is symmetric in the secret and the guess for equal lengths
(after pass 1 the `i ≠ j` restriction never rules out a pair, and the greedy
pass counts the multiset intersection of the leftover values, which is
symmetric). -/
theorem score_symmetric (S G : List Nat) (hlen : G.length = S.length) :
    score S G = score G S := by
  obtain ⟨rs, gs, h, hp⟩ : ∃ rs gs h, pass1 S G = some (rs, gs, h) :=
    ⟨_, _, _, pass1_mask S G hlen⟩
  have hswap := pass1_swap S G hlen rs gs h hp
  have hns1 := pass1_noSamePos S G rs gs h hp
  have hns2 := pass1_noSamePos G S gs rs h hswap
  obtain ⟨rs1, gs1, he1, -, -, -, -⟩ := pass2Outer_char rs 0 gs 0 hns1
  obtain ⟨rs2, gs2, he2, -, -, -, -⟩ := pass2Outer_char gs 0 rs 0 hns2
  unfold score
  rw [hp, hswap]
  simp only [Option.map_some']
  rw [he1, he2, Multiset.inter_comm]

/-- Witness for C10: swapping `[1,5,6,3]` and `[3,5,1,0]` yields the same
score. -/
theorem score_symmetric_witness :
    score [1, 5, 6, 3] [3, 5, 1, 0] = score [3, 5, 1, 0] [1, 5, 6, 3] :=
  score_symmetric [1, 5, 6, 3] [3, 5, 1, 0] rfl

end Mastermind
